import Mathlib

/-!
Verification of the kelaomi upstream proxy core: a shallow embedding of the
credential-rotation retry loop (`FetchWithRetry`), the blank-line-delimited
stream decoder (`StreamLines`), and the upstream-to-target format translator
(`ToOpenAIStreamChunk`, `ConvertToOpenAIStream`, `TransformModelID`),
together with theorems settling the specified behavioural claims.

Modelling conventions:
- bytes are `Nat` (the line feed is 10), text is `List Char` or `String`;
- Go `time.Duration` values are `Nat` nanoseconds (the source multiplies the
  delay by the constant 2 through `float64`, which is exact for every value
  that arises here, all being far below 2 to the 53rd);
- a Go struct pointer field is `Option`; the Go `Content` field, declared
  with the empty interface type, is `GoContent` below — a nil interface is
  `GoContent.nil` and compares unequal to the empty string;
- the network, the system clock and JSON parsing are oracles passed in as
  explicit arguments (`responses`, `nowUnix`/`nowMillis`, `parse`);
- channels are modelled by the sequential order in which the producing
  goroutine emits values: a streaming source is a list of reads followed by
  one final read error (the string "EOF" being Go's clean end of source);
  where the consuming side holds a select between two channels that can be
  ready at the same time — the converter's line and error channels after a
  decode error — the select's choices are an explicit schedule argument
  (`convertRace`), so every resolution of the race is a value of the model.
-/

namespace Kelaomi

/- ----------------------------------------------------------------
   config.go: retry configuration (time.Duration in nanoseconds)
   ---------------------------------------------------------------- -/

/-- `InitialDelay = 500 * time.Millisecond` from config.go, in nanoseconds. -/
def InitialDelay : Nat := 500000000

/-- `MaxDelay = 16 * time.Second` from config.go, in nanoseconds. -/
def MaxDelay : Nat := 16000000000

/-- `DelayMultiplier = 2` from config.go. -/
def DelayMultiplier : Nat := 2

/- ----------------------------------------------------------------
   FetchWithRetry: credential rotation with exponential backoff
   ---------------------------------------------------------------- -/

/-- Outcome of one HTTP POST attempt: a transport error (`err != nil`) or a
response carrying an HTTP status code. -/
inductive AttemptOutcome where
  | transportErr
  | status (code : Nat)
deriving DecidableEq

/-- The three ways `FetchWithRetry` returns: a successful response obtained on
a given attempt, a non-retryable status surfaced immediately, or the pool
exhausted after the recorded number of attempts (the Go error message
"all credentials exhausted after %d attempts"). -/
inductive FetchResult where
  | success (attempt : Nat) (code : Nat)
  | nonRetryable (code : Nat)
  | exhausted (attempts : Nat)
deriving DecidableEq

/-- Observable trace of one `FetchWithRetry` call: the returned result, the
backoff sleeps performed (nanoseconds, in order), and the credential indices
used for the attempts, in order. -/
structure FetchTrace where
  result : FetchResult
  sleeps : List Nat
  tried : List Nat
deriving DecidableEq

/-- The delay update after a retryable failure:
`delay = delay * DelayMultiplier; if delay > MaxDelay { delay = MaxDelay }`. -/
def nextDelay (delay : Nat) : Nat :=
  let d := delay * DelayMultiplier
  if d > MaxDelay then MaxDelay else d

/-- The loop of `FetchWithRetry` (part_000 lines 35-84). The loop condition is
`attempts < len(Credentials)`; since `attempts` rises by one on every
retryable iteration and every other branch returns, the remaining permitted
iterations `n - attempts` serve as structural fuel. `responses k` is the
oracle outcome of the k-th attempt (which uses credential `credIdx`). -/
def fetchAux (responses : Nat → AttemptOutcome) (n : Nat) :
    Nat → Nat → Nat → Nat → FetchTrace
  | 0, attempts, _, _ => ⟨FetchResult.exhausted attempts, [], []⟩
  | fuel + 1, attempts, credIdx, delay =>
    match responses attempts with
    | AttemptOutcome.transportErr =>
      let t := fetchAux responses n fuel (attempts + 1) ((credIdx + 1) % n) (nextDelay delay)
      ⟨t.result, delay :: t.sleeps, credIdx :: t.tried⟩
    | AttemptOutcome.status code =>
      if code < 400 then
        ⟨FetchResult.success attempts code, [], [credIdx]⟩
      else if code = 401 ∨ code = 403 ∨ 500 ≤ code then
        let t := fetchAux responses n fuel (attempts + 1) ((credIdx + 1) % n) (nextDelay delay)
        ⟨t.result, delay :: t.sleeps, credIdx :: t.tried⟩
      else
        ⟨FetchResult.nonRetryable code, [], [credIdx]⟩

/-- `FetchWithRetry` over a pool of `n` credentials: `attempts = 0`,
`credIdx = 0`, `delay = InitialDelay`. -/
def FetchWithRetry (responses : Nat → AttemptOutcome) (n : Nat) : FetchTrace :=
  fetchAux responses n n 0 0 InitialDelay

/-- The sleeps performed by `fuel` consecutive retryable iterations starting
from a given delay. -/
def sleepsFrom (delay : Nat) : Nat → List Nat
  | 0 => []
  | fuel + 1 => delay :: sleepsFrom (nextDelay delay) fuel

/-- The credential indices used by `fuel` consecutive retryable iterations
starting from a given index, rotating modulo the pool size. -/
def triedFrom (credIdx n : Nat) : Nat → List Nat
  | 0 => []
  | fuel + 1 => credIdx :: triedFrom ((credIdx + 1) % n) n fuel

theorem triedFrom_length (credIdx n : Nat) : ∀ fuel, (triedFrom credIdx n fuel).length = fuel := by
  intro fuel
  induction fuel generalizing credIdx with
  | zero => rfl
  | succ f ih => simp [triedFrom, ih]

theorem nextDelay_eq (d : Nat) : nextDelay d = min (d * 2) MaxDelay := by
  simp only [nextDelay, DelayMultiplier]
  split <;> omega

theorem fetchAux_all_500 (responses : Nat → AttemptOutcome)
    (h500 : ∀ k, responses k = AttemptOutcome.status 500) (n : Nat) :
    ∀ fuel attempts credIdx delay,
      fetchAux responses n fuel attempts credIdx delay =
        ⟨FetchResult.exhausted (attempts + fuel), sleepsFrom delay fuel,
          triedFrom credIdx n fuel⟩ := by
  intro fuel
  induction fuel with
  | zero => intro attempts credIdx delay; simp [fetchAux, sleepsFrom, triedFrom]
  | succ f ih =>
    intro attempts credIdx delay
    rw [fetchAux, h500 attempts]
    simp only [ih (attempts + 1)]
    have h1 : ¬ (500 < 400) := by omega
    have h2 : (500 = 401 ∨ 500 = 403 ∨ 500 ≤ 500) := by omega
    rw [if_neg h1, if_pos h2]
    simp [sleepsFrom, triedFrom]
    omega

theorem sleepsFrom_eq (fuel : Nat) :
    ∀ d, d ≤ MaxDelay →
      sleepsFrom d fuel = (List.range fuel).map (fun k => min (d * 2 ^ k) MaxDelay) := by
  induction fuel with
  | zero => intro d _; simp [sleepsFrom]
  | succ f ih =>
    intro d hd
    have hd' : nextDelay d ≤ MaxDelay := by rw [nextDelay_eq]; omega
    rw [sleepsFrom, ih (nextDelay d) hd', List.range_succ_eq_map]
    simp only [List.map_cons, List.map_map]
    have hhead : min (d * 2 ^ 0) MaxDelay = d := by
      simp [Nat.min_eq_left, hd]
    have hfun : ∀ k : Nat,
        min (nextDelay d * 2 ^ k) MaxDelay = min (d * 2 ^ (k + 1)) MaxDelay := by
      intro k
      rw [nextDelay_eq]
      rcases Nat.le_total (d * 2) MaxDelay with hle | hle
      · rw [Nat.min_eq_left hle, pow_succ]
        ring_nf
      · rw [Nat.min_eq_right hle]
        have h2k : 1 ≤ 2 ^ k := Nat.one_le_two_pow
        have hbig : MaxDelay ≤ MaxDelay * 2 ^ k :=
          Nat.le_mul_of_pos_right MaxDelay (by omega)
        have hbig' : MaxDelay ≤ d * 2 ^ (k + 1) := by
          calc MaxDelay ≤ d * 2 := hle
            _ ≤ d * 2 * 2 ^ k := Nat.le_mul_of_pos_right _ (by omega)
            _ = d * 2 ^ (k + 1) := by rw [pow_succ]; ring
        rw [Nat.min_eq_right hbig, Nat.min_eq_right hbig']
    rw [hhead]
    have hfe : (fun k => min (nextDelay d * 2 ^ k) MaxDelay) =
        ((fun k => min (d * 2 ^ k) MaxDelay) ∘ Nat.succ) := by
      funext k
      simp only [Function.comp_apply]
      simpa using hfun k
    rw [hfe]

theorem sleepsFrom_chain (fuel : Nat) :
    ∀ d, d ≤ MaxDelay → List.Chain' (fun a b => a ≤ b) (sleepsFrom d fuel) := by
  induction fuel with
  | zero => intro d _; simp [sleepsFrom]
  | succ f ih =>
    intro d hd
    have hd' : nextDelay d ≤ MaxDelay := by rw [nextDelay_eq]; omega
    rw [sleepsFrom, List.chain'_cons']
    refine ⟨?_, ih (nextDelay d) hd'⟩
    intro b hb
    cases f with
    | zero => simp [sleepsFrom] at hb
    | succ f' =>
      simp only [sleepsFrom, List.head?_cons, Option.mem_def, Option.some.injEq] at hb
      subst hb
      rw [nextDelay_eq]
      omega

/-- C1. With a pool of N >= 1 credentials where every attempt yields HTTP
status 500, `FetchWithRetry` makes exactly N attempts, sleeps with delays
500ms, 1000ms, 2000ms, doubling and capped at 16s (hence monotonically
non-decreasing), and returns the exhaustion failure naming attempt count N. -/
theorem fetchWithRetry_all_500_exhausts_pool (n : Nat) (_hn : 1 ≤ n)
    (responses : Nat → AttemptOutcome)
    (h500 : ∀ k, responses k = AttemptOutcome.status 500) :
    (FetchWithRetry responses n).result = FetchResult.exhausted n ∧
    (FetchWithRetry responses n).tried.length = n ∧
    (FetchWithRetry responses n).sleeps =
      (List.range n).map (fun k => min (InitialDelay * 2 ^ k) MaxDelay) ∧
    List.Chain' (fun a b => a ≤ b) (FetchWithRetry responses n).sleeps := by
  have hIM : InitialDelay ≤ MaxDelay := by decide
  rw [FetchWithRetry, fetchAux_all_500 responses h500 n n 0 0 InitialDelay]
  refine ⟨by simp, ?_, ?_, ?_⟩
  · simp [triedFrom_length]
  · exact sleepsFrom_eq n InitialDelay hIM
  · exact sleepsFrom_chain n InitialDelay hIM

/-- Witness for C1 at the concrete pool size 3 with every attempt yielding
status 500. -/
theorem fetchWithRetry_all_500_exhausts_pool_witness :
    (FetchWithRetry (fun _ => AttemptOutcome.status 500) 3).result =
      FetchResult.exhausted 3 ∧
    (FetchWithRetry (fun _ => AttemptOutcome.status 500) 3).tried.length = 3 ∧
    (FetchWithRetry (fun _ => AttemptOutcome.status 500) 3).sleeps =
      (List.range 3).map (fun k => min (InitialDelay * 2 ^ k) MaxDelay) ∧
    List.Chain' (fun a b => a ≤ b)
      (FetchWithRetry (fun _ => AttemptOutcome.status 500) 3).sleeps :=
  fetchWithRetry_all_500_exhausts_pool 3 (by decide)
    (fun _ => AttemptOutcome.status 500) (fun _ => rfl)

/-- C2. If the first attempt returns a status that is >= 400 but not 401, not
403 and below 500, `FetchWithRetry` returns at once as a non-retryable
failure: no backoff sleep happens and only credential 0 was ever used. -/
theorem fetchWithRetry_non_retryable_returns_immediately (n : Nat) (hn : 1 ≤ n)
    (responses : Nat → AttemptOutcome) (code : Nat)
    (h0 : responses 0 = AttemptOutcome.status code)
    (h400 : 400 ≤ code) (h401 : code ≠ 401) (h403 : code ≠ 403) (h500 : code < 500) :
    FetchWithRetry responses n = ⟨FetchResult.nonRetryable code, [], [0]⟩ := by
  obtain ⟨m, rfl⟩ : ∃ m, n = m + 1 := ⟨n - 1, by omega⟩
  rw [FetchWithRetry, fetchAux, h0]
  dsimp only
  rw [if_neg (by omega), if_neg (by omega)]

/-- Witness for C2: a pool of size 1 whose first attempt yields status 400. -/
theorem fetchWithRetry_non_retryable_returns_immediately_witness :
    FetchWithRetry (fun _ => AttemptOutcome.status 400) 1 =
      ⟨FetchResult.nonRetryable 400, [], [0]⟩ :=
  fetchWithRetry_non_retryable_returns_immediately 1 (by decide)
    (fun _ => AttemptOutcome.status 400) 400 rfl (by decide) (by decide) (by decide)
    (by decide)

/-- C10. With an empty credential pool the loop body never runs: no attempt,
no sleep, and the exhaustion failure names attempt count 0. -/
theorem fetchWithRetry_empty_pool (responses : Nat → AttemptOutcome) :
    FetchWithRetry responses 0 = ⟨FetchResult.exhausted 0, [], []⟩ := rfl

/- ----------------------------------------------------------------
   StreamLines: blank-line-delimited record decoding
   ---------------------------------------------------------------- -/

/-- The scan of part_000 lines 120-126: the first index i with
`accumulated[i] = LF` and `accumulated[i+1] = LF` (the source stores
`lineEnd = i + 2`; we return i). -/
def findDelimAux : List Nat → Nat → Option Nat
  | a :: b :: rest, i =>
    if a = 10 ∧ b = 10 then some i else findDelimAux (b :: rest) (i + 1)
  | _, _ => none

/-- First occurrence of two consecutive line feeds in the buffer. -/
def findDelim (acc : List Nat) : Option Nat := findDelimAux acc 0

theorem findDelimAux_le (l : List Nat) :
    ∀ i0 j, findDelimAux l i0 = some j → i0 ≤ j ∧ j + 2 ≤ i0 + l.length := by
  induction l with
  | nil => intro i0 j h; simp [findDelimAux] at h
  | cons a rest ih =>
    intro i0 j h
    cases rest with
    | nil => simp [findDelimAux] at h
    | cons b rest' =>
      rw [findDelimAux] at h
      by_cases hab : a = 10 ∧ b = 10
      · rw [if_pos hab] at h
        cases h
        simp only [List.length_cons]
        omega
      · rw [if_neg hab] at h
        have := ih (i0 + 1) j h
        simp only [List.length_cons] at this ⊢
        omega

theorem findDelim_le (acc : List Nat) (i : Nat) (h : findDelim acc = some i) :
    i + 2 ≤ acc.length := by
  have := findDelimAux_le acc 0 i h
  omega

/-- The inner extraction loop of part_000 lines 119-143: repeatedly take the
bytes before the first double line feed as one record — yielded only when
non-empty (`if len(line) > 0`) — and advance the buffer past the delimiter.
Each iteration consumes at least two bytes, so the buffer length is
structural fuel; `processBuffer` below supplies enough of it. Returns the
yielded records and the remaining (unterminated) buffer. -/
def processBufferAux : Nat → List Nat → List (List Nat) × List Nat
  | 0, acc => ([], acc)
  | fuel + 1, acc =>
    match findDelim acc with
    | none => ([], acc)
    | some i =>
      let line := acc.take i
      let r := processBufferAux fuel (acc.drop (i + 2))
      (if 0 < line.length then line :: r.1 else r.1, r.2)

/-- Extract every complete record from the accumulation buffer. -/
def processBuffer (acc : List Nat) : List (List Nat) × List Nat :=
  processBufferAux acc.length acc

/-- `StreamLines` (part_000 lines 94-156), with the byte source modelled as
the list of successful reads followed by one final read error; Go reports a
clean end of source as the error string "EOF", which the code swallows
(lines 146-151). Returns the records sent on the line channel and the error
sent on the error channel, if any. Unterminated trailing bytes are dropped. -/
def streamLinesGo (endErr : String) : List (List Nat) → List Nat → List (List Nat) × Option String
  | [], _ => ([], if endErr = "EOF" then none else some endErr)
  | chunk :: rest, acc =>
    let p := processBuffer (acc ++ chunk)
    let r := streamLinesGo endErr rest p.2
    (p.1 ++ r.1, r.2)

/-- One full run of the decoding goroutine of `StreamLines`. -/
def StreamLines (chunks : List (List Nat)) (endErr : String) : List (List Nat) × Option String :=
  streamLinesGo endErr chunks []

/-- The bytes of a string, for readable concrete stream inputs. -/
def asBytes (s : String) : List Nat := s.data.map Char.toNat

/-- C3. Fed "A\n\nB\n\nC" and then a clean end of source, the decoder yields
exactly the records "A" and "B" in order, drops the unterminated trailing
"C", and reports no error. -/
theorem streamLines_trailing_partial_record_dropped :
    StreamLines [asBytes "A\n\nB\n\nC"] "EOF" = ([asBytes "A", asBytes "B"], none) := by
  decide

/-- The split described by the claim, stated from its words for comparison
with the source's `processBufferAux`: each occurrence of two consecutive line
feeds terminates one record, and everything before that marker — including a
zero-length segment — is yielded as one record. -/
def claimedSplitAux : Nat → List Nat → List (List Nat) × List Nat
  | 0, acc => ([], acc)
  | fuel + 1, acc =>
    match findDelim acc with
    | none => ([], acc)
    | some i =>
      let r := claimedSplitAux fuel (acc.drop (i + 2))
      (acc.take i :: r.1, r.2)

/-- The claim's split of a whole buffer. -/
def claimedSplit (acc : List Nat) : List (List Nat) × List Nat :=
  claimedSplitAux acc.length acc

/-- C4 counterexample: on "\n\nA\n\n" the first double line feed terminates a
zero-length record, which the claim says is yielded; the decoder yields only
"A" (part_000 line 135 guards with `len(line) > 0`). -/
theorem streamLines_drops_empty_record_counterexample :
    (StreamLines [asBytes "\n\nA\n\n"] "EOF").1 = [asBytes "A"] ∧
    (claimedSplit (asBytes "\n\nA\n\n")).1 = [[], asBytes "A"] ∧
    ([asBytes "A"] : List (List Nat)) ≠ [[], asBytes "A"] := by
  decide

theorem processBufferAux_filter (fuel : Nat) :
    ∀ acc, processBufferAux fuel acc =
      ((claimedSplitAux fuel acc).1.filter (fun r => decide (0 < r.length)),
        (claimedSplitAux fuel acc).2) := by
  induction fuel with
  | zero => intro acc; simp [processBufferAux, claimedSplitAux]
  | succ f ih =>
    intro acc
    rw [processBufferAux, claimedSplitAux]
    cases hfd : findDelim acc with
    | none => simp
    | some i =>
      simp only [ih]
      by_cases h : 0 < (acc.take i).length
      · simp [List.filter_cons, h]
      · simp [List.filter_cons, h]

/-- C4 amended: each occurrence of two consecutive line feeds terminates one
record, and everything before the marker is yielded as one record when it is
non-empty; a zero-length segment (delimiter at the start of the remaining
buffer, or immediately after a previous delimiter) is discarded, not
yielded. -/
theorem streamLines_yields_nonempty_split_segments (bs : List Nat) :
    (StreamLines [bs] "EOF").1 =
      (claimedSplit bs).1.filter (fun r => decide (0 < r.length)) ∧
    (StreamLines [bs] "EOF").2 = none := by
  constructor
  · show (streamLinesGo "EOF" [bs] []).1 = _
    simp [streamLinesGo, processBuffer, processBufferAux_filter, claimedSplit]
  · simp [StreamLines, streamLinesGo]

/- ----------------------------------------------------------------
   models.go / part_003: schema types and the stream chunk translator
   ---------------------------------------------------------------- -/

/-- `AtlassianContentElement` from models.go. -/
structure AtlassianContentElement where
  text : String
deriving DecidableEq

/-- `AtlassianResponseMessage` from models.go. -/
structure AtlassianResponseMessage where
  role : String
  content : List AtlassianContentElement
deriving DecidableEq

/-- `AtlassianResponseChoice` from models.go; `FinishReason *string` is an
`Option`. -/
structure AtlassianResponseChoice where
  index : Int
  message : AtlassianResponseMessage
  finishReason : Option String
deriving DecidableEq

/-- `AtlassianResponsePayload` from models.go. -/
structure AtlassianResponsePayload where
  id : String
  created : Int
  choices : List AtlassianResponseChoice
deriving DecidableEq

/-- `AtlassianStreamChunk` from models.go. -/
structure AtlassianStreamChunk where
  responsePayload : AtlassianResponsePayload
deriving DecidableEq

/-- The Go `Content` field of `ChatMessage`, declared with the empty
interface type: `nil` is the nil interface (the zero value, never assigned),
`str s` is a stored string. Go compares an interface with a string literal
by interface equality, so the nil interface is unequal to the empty string —
`contentEqEmpty` below is the truth value of `Content == ""` in Go. -/
inductive GoContent where
  | nil
  | str (s : String)
deriving DecidableEq

/-- Truth value of the Go comparison `Content == ""`. -/
def contentEqEmpty : GoContent → Bool
  | GoContent.nil => false
  | GoContent.str s => s = ""

/-- `ChatMessage` from models.go (`Content interface` modelled by
`GoContent`). -/
structure ChatMessage where
  role : String
  content : GoContent
deriving DecidableEq

/-- `ChatCompletionChoice` from models.go; the `*ChatMessage` and `*string`
pointer fields are `Option`s. -/
structure ChatCompletionChoice where
  index : Int
  message : Option ChatMessage
  delta : Option ChatMessage
  finishReason : Option String
deriving DecidableEq

/-- `ChatCompletionStreamResponse` from models.go. -/
structure ChatCompletionStreamResponse where
  id : String
  object : String
  created : Int
  model : String
  choices : List ChatCompletionChoice
deriving DecidableEq

/-- Go conversion of a 64-bit integer to `rune` (= int32): truncate to 32
bits with two's-complement wraparound. -/
def runeOfInt64 (x : Int) : Int :=
  let u := x % 4294967296
  if u < 2147483648 then u else u - 4294967296

/-- Go conversion of a rune to a one-character string: a valid Unicode code
point (0 to 0x10FFFF, surrogates excluded) encodes itself; every other value
becomes U+FFFD, the replacement character. -/
def goStringOfRune (r : Int) : String :=
  if 0 ≤ r ∧ r ≤ 1114111 ∧ ¬ (55296 ≤ r ∧ r ≤ 57343) then
    String.mk [Char.ofNat r.toNat]
  else
    String.mk [Char.ofNat 65533]

/-- `generateChatCompletionID` from part_003 lines 105-108:
`"chatcmpl-" + string(rune(time.Now().UnixMilli()))`, with the clock passed
in as the milliseconds value. -/
def generateChatCompletionID (nowMillis : Int) : String :=
  "chatcmpl-" ++ goStringOfRune (runeOfInt64 nowMillis)

/-- `ToOpenAIStreamChunk` from part_003 lines 56-103, with the clock passed
in (`nowUnix` for `time.Now().Unix()`, `nowMillis` for the id generator).
The delta starts as the zero `ChatMessage` (role "", content nil) and its
fields are assigned only under the source's guards; the choice is appended
when `delta.Role != "" || delta.Content != "" || choice.FinishReason != nil`
holds under Go interface comparison. -/
def ToOpenAIStreamChunk (atlasChunk : AtlassianStreamChunk) (requestedModel : String)
    (nowUnix nowMillis : Int) : ChatCompletionStreamResponse :=
  let choices : List ChatCompletionChoice :=
    match atlasChunk.responsePayload.choices with
    | [] => []
    | choice :: _ =>
      let deltaRole : String :=
        if choice.message.role ≠ "" then choice.message.role else ""
      let deltaContent : GoContent :=
        match choice.message.content with
        | [] => GoContent.nil
        | c0 :: _ => if c0.text ≠ "" then GoContent.str c0.text else GoContent.nil
      if deltaRole ≠ "" ∨ contentEqEmpty deltaContent = false ∨ choice.finishReason ≠ none then
        [⟨choice.index, none, some ⟨deltaRole, deltaContent⟩, choice.finishReason⟩]
      else []
  let id :=
    if atlasChunk.responsePayload.id = "" then generateChatCompletionID nowMillis
    else atlasChunk.responsePayload.id
  let created :=
    if atlasChunk.responsePayload.created = 0 then nowUnix
    else atlasChunk.responsePayload.created
  ⟨id, "chat.completion.chunk", created, requestedModel, choices⟩

/- ----------------------------------------------------------------
   ConvertToOpenAIStream: the SSE re-framing loop
   ---------------------------------------------------------------- -/

/-- `hasPrefix` from part_000 lines 241-243:
`len(s) >= len(prefix) && s[:len(prefix)] == prefix`. -/
def hasPrefix (s p : List Char) : Bool :=
  decide (p.length ≤ s.length) && (s.take p.length == p)

/-- The character class trimmed by `trim` (part_000 lines 250-255). -/
def isSpaceChar (c : Char) : Bool :=
  c = ' ' ∨ c = '\t' ∨ c = '\n' ∨ c = '\r'

/-- `trim` from part_000 lines 245-259: the source advances a start index
past leading trim characters and retreats an end index past trailing ones;
equivalently, drop the maximal trimmed run from each end. -/
def trim (s : List Char) : List Char :=
  ((s.dropWhile isSpaceChar).reverse.dropWhile isSpaceChar).reverse

/-- An output frame of the converter: either one serialized chunk wrapped as
`"data: " + json + "\n\n"`, carried here as the chunk itself, or the
terminal frame `"data: [DONE]\n\n"`. -/
inductive Frame where
  | data (chunk : ChatCompletionStreamResponse)
  | done
deriving DecidableEq

/-- Lines 212-219 of `ConvertToOpenAIStream`: the converted chunk is emitted
unless it has no choices, or its first choice has a nil delta, or that delta
compares all-empty under Go interface comparison
(`Role == "" && Content == "" && FinishReason == nil`). -/
def shouldEmit (openChunk : ChatCompletionStreamResponse) : Bool :=
  match openChunk.choices with
  | [] => false
  | choice :: _ =>
    match choice.delta with
    | none => false
    | some d =>
      if d.role = "" ∧ contentEqEmpty d.content = true ∧ choice.finishReason = none then
        false
      else
        true

/-- The body of the converter loop (part_000 lines 189-233) for one record,
with JSON decoding as an oracle `parse` (unmarshalling is external library
code): `none` means the record is skipped, `some c` means the frame for `c`
is emitted. -/
def processLine (parse : List Char → Option AtlassianStreamChunk) (model : String)
    (nowUnix nowMillis : Int) (line : List Char) : Option ChatCompletionStreamResponse :=
  if hasPrefix line ("data:".data) = false then none
  else
    let data := trim (line.drop 5)
    if data = "[DONE]".data then none
    else
      match parse data with
      | none => none
      | some atlasChunk =>
        let openChunk := ToOpenAIStreamChunk atlasChunk model nowUnix nowMillis
        if shouldEmit openChunk then some openChunk else none

/-- The converter goroutine of `ConvertToOpenAIStream` (part_000 lines
164-236) over the sequential record stream: records arrive in order, then
the line channel closes; `endErr` is the error delivered on the error
channel, `none` when the decoder finished cleanly. On clean close the single
terminal frame is emitted; on an error the loop returns without it,
forwarding the error. -/
def convertGo (parse : List Char → Option AtlassianStreamChunk) (model : String)
    (nowUnix nowMillis : Int) : List (List Char) → Option String → List Frame × Option String
  | [], endErr =>
    match endErr with
    | none => ([Frame.done], none)
    | some e => ([], some e)
  | line :: rest, endErr =>
    match processLine parse model nowUnix nowMillis line with
    | none => convertGo parse model nowUnix nowMillis rest endErr
    | some chunk =>
      let r := convertGo parse model nowUnix nowMillis rest endErr
      (Frame.data chunk :: r.1, r.2)

/-- One full run of `ConvertToOpenAIStream` on a decoded record stream. -/
def ConvertToOpenAIStream (parse : List Char → Option AtlassianStreamChunk) (model : String)
    (nowUnix nowMillis : Int) (lines : List (List Char)) (endErr : Option String) :
    List Frame × Option String :=
  convertGo parse model nowUnix nowMillis lines endErr

/-- An upstream chunk whose single choice has empty role, no content
fragments and no finish reason: the input on which the suppression invariant
fails. -/
def emptyDeltaChunk : AtlassianStreamChunk :=
  ⟨⟨"chunk-1", 5, [⟨0, ⟨"", []⟩, none⟩]⟩⟩

/-- C5 fails on the code: for a chunk whose first choice has empty role,
empty content and no finish reason, the translator still appends the choice
(the Go guard `delta.Content != ""` compares a nil Content with the empty
string and is true), the converter's skip check never fires for the same
reason, and the record is emitted as a frame — not suppressed as the spec's
suppression invariant and the source's own comments ("Only add choice if
there's meaningful content or finish reason", "Skip empty chunks") state. -/
theorem empty_delta_chunk_is_emitted :
    (ToOpenAIStreamChunk emptyDeltaChunk "m" 1 2).choices =
      [⟨0, none, some ⟨"", GoContent.nil⟩, none⟩] ∧
    shouldEmit (ToOpenAIStreamChunk emptyDeltaChunk "m" 1 2) = true ∧
    processLine (fun _ => some emptyDeltaChunk) "m" 1 2 ("data: x".data) =
      some (ToOpenAIStreamChunk emptyDeltaChunk "m" 1 2) := by
  refine ⟨by decide, by decide, by decide⟩

/-- C6 fails on the code: `generateChatCompletionID` builds
`"chatcmpl-" + string(rune(UnixMilli))`; the millisecond count truncated to
int32 is virtually never a valid code point, so the one-character tail is
the replacement character U+FFFD and two chunk emissions at distinct times
receive the same synthesized id — not one unique per chunk emission. The id
substitution itself (only when the upstream id is empty) is exercised on the
chunk with empty id and zero created below. -/
theorem generated_ids_collide :
    generateChatCompletionID 1700000000000 = generateChatCompletionID 1700000000001 ∧
    (1700000000000 : Int) ≠ 1700000000001 ∧
    (ToOpenAIStreamChunk ⟨⟨"", 0, []⟩⟩ "m" 7 1700000000000).id =
      (ToOpenAIStreamChunk ⟨⟨"", 0, []⟩⟩ "m" 7 1700000000001).id := by
  refine ⟨by decide, by decide, by decide⟩

/- ----------------------------------------------------------------
   TransformModelID: vendor prefix handling
   ---------------------------------------------------------------- -/

/-- Go `strings.Split(modelID, ":")` for the single-character separator:
splits at every colon; the empty input gives one empty part, an input
without a colon gives one part. -/
def splitOnColon : List Char → List (List Char)
  | [] => [[]]
  | c :: rest =>
    if c = ':' then [] :: splitOnColon rest
    else
      match splitOnColon rest with
      | [] => [[c]]
      | p :: ps => (c :: p) :: ps

/-- `TransformModelID` from part_003 lines 8-12:
`parts := strings.Split(modelID, ":"); return parts[len(parts)-1]` — the
split is never empty, so the default of `getLastD` is never used. -/
def TransformModelID (modelID : List Char) : List Char :=
  (splitOnColon modelID).getLastD []

theorem splitOnColon_ne_nil (s : List Char) : splitOnColon s ≠ [] := by
  cases s with
  | nil => simp [splitOnColon]
  | cons c rest =>
    rw [splitOnColon]
    by_cases hc : c = ':'
    · simp [hc]
    · rw [if_neg hc]
      cases splitOnColon rest <;> simp

theorem splitOnColon_no_colon (s : List Char) (h : ':' ∉ s) : splitOnColon s = [s] := by
  induction s with
  | nil => rfl
  | cons c rest ih =>
    have hc : c ≠ ':' := fun hh => h (by simp [hh])
    have hrest : ':' ∉ rest := fun hh => h (by simp [hh])
    rw [splitOnColon, if_neg hc, ih hrest]

theorem splitOnColon_length (s : List Char) :
    (splitOnColon s).length = s.count ':' + 1 := by
  induction s with
  | nil => simp [splitOnColon]
  | cons c rest ih =>
    rw [splitOnColon]
    by_cases hc : c = ':'
    · subst hc
      simp [List.count_cons, ih]
    · rw [if_neg hc]
      cases hsp : splitOnColon rest with
      | nil => exact absurd hsp (splitOnColon_ne_nil rest)
      | cons p ps =>
        rw [hsp] at ih
        simp only [List.length_cons] at ih ⊢
        rw [List.count_cons]
        simp [hc, ih]

theorem transformModelID_append (xs rest : List Char) :
    TransformModelID (xs ++ ':' :: rest) = TransformModelID rest := by
  induction xs with
  | nil =>
    show TransformModelID (':' :: rest) = _
    rw [TransformModelID, splitOnColon, if_pos rfl, List.getLastD_cons]
    rfl
  | cons c xs ih =>
    show TransformModelID (c :: (xs ++ ':' :: rest)) = _
    rw [TransformModelID, splitOnColon]
    by_cases hc : c = ':'
    · rw [if_pos hc, List.getLastD_cons]
      exact ih
    · rw [if_neg hc]
      cases hsp : splitOnColon (xs ++ ':' :: rest) with
      | nil => exact absurd hsp (splitOnColon_ne_nil _)
      | cons p ps =>
        have hlen : (splitOnColon (xs ++ ':' :: rest)).length ≥ 2 := by
          rw [splitOnColon_length]
          have : (xs ++ ':' :: rest).count ':' ≥ 1 := by
            rw [List.count_append, List.count_cons]
            simp
            omega
          omega
        rw [hsp] at hlen
        cases ps with
        | nil => simp at hlen
        | cons q qs =>
          rw [← ih, TransformModelID, hsp]
          simp [List.getLastD_cons]

/-- C7 counterexample: the id "anthropic:claude:v2" has vendor prefix
"anthropic" and remainder "claude:v2", but the code transmits only "v2",
the segment after the last colon. -/
theorem transformModelID_not_remainder_counterexample :
    TransformModelID ("anthropic:claude:v2".data) = "v2".data ∧
    "v2".data ≠ "claude:v2".data := by
  refine ⟨by decide, by decide⟩

/-- C7 amended: the model string placed in the outbound payload is the last
colon-separated segment of the requested id — for "vendor:rest" where the
remainder contains no further colon this is the remainder, and an id with no
colon is transmitted unchanged. -/
theorem transformModelID_last_segment :
    (∀ vendor rest : List Char, ':' ∉ rest →
      TransformModelID (vendor ++ ':' :: rest) = rest) ∧
    (∀ s : List Char, ':' ∉ s → TransformModelID s = s) := by
  have hnc : ∀ s : List Char, ':' ∉ s → TransformModelID s = s := by
    intro s h
    rw [TransformModelID, splitOnColon_no_colon s h]
    rfl
  exact ⟨fun vendor rest h => by rw [transformModelID_append, hnc rest h], hnc⟩

/-- Witness for C7 amended, at the id "anthropic:claude". -/
theorem transformModelID_last_segment_witness :
    TransformModelID ("anthropic".data ++ ':' :: "claude".data) = "claude".data :=
  transformModelID_last_segment.1 ("anthropic".data) ("claude".data) (by decide)

/-- C8. A record that carries the data prefix and is not the terminal
sentinel but whose payload fails JSON parsing is skipped without
terminating the stream: the converted output over any surrounding records
and any stream ending is the same as if the malformed record were absent. -/
theorem convert_skips_malformed (parse : List Char → Option AtlassianStreamChunk)
    (model : String) (t ms : Int) (pre post : List (List Char)) (endErr : Option String)
    (bad : List Char)
    (hpre : hasPrefix bad ("data:".data) = true)
    (hdone : trim (bad.drop 5) ≠ "[DONE]".data)
    (hparse : parse (trim (bad.drop 5)) = none) :
    ConvertToOpenAIStream parse model t ms (pre ++ bad :: post) endErr =
      ConvertToOpenAIStream parse model t ms (pre ++ post) endErr := by
  have hskip : processLine parse model t ms bad = none := by
    simp [processLine, hpre, hdone, hparse]
  induction pre with
  | nil => simp [ConvertToOpenAIStream, convertGo, hskip]
  | cons l pre ih =>
    simp only [ConvertToOpenAIStream, List.cons_append] at ih ⊢
    rw [convertGo, convertGo]
    cases hpl : processLine parse model t ms l with
    | none => exact ih
    | some c => simp [ih]

/-- Witness for C8: the single malformed record "data: x" under a parser
that rejects it produces the same output as the empty record stream. -/
theorem convert_skips_malformed_witness :
    ConvertToOpenAIStream (fun _ => none) "m" 1 2 ([] ++ "data: x".data :: []) none =
      ConvertToOpenAIStream (fun _ => none) "m" 1 2 ([] ++ []) none :=
  convert_skips_malformed (fun _ => none) "m" 1 2 [] [] none ("data: x".data)
    (by decide) (by decide) rfl

/-- The converter loop of `ConvertToOpenAIStream` (part_000 lines 168-236)
with the select race made explicit. After the decoder hits an error it sends
the error (part_000 lines 146-150) and its deferred closes run, so the error
sits buffered in the error channel while any still-unconsumed records sit
buffered in the line channel, and then both channels are closed; from that
point every select between the two simultaneously ready cases is decided at
random. `sched` supplies one Boolean per loop iteration at which the
buffered error is available: `true` receives the error now — the loop
returns, dropping any records still buffered — and `false` receives from the
line channel; in particular, with no records left, `false` observes the
closed line channel and emits the terminal frame even though the stream
ended in an error, never reading the error at all. On a clean ending the
error channel is closed without a value and only ever yields nil, which the
loop ignores, so the schedule is immaterial there. -/
def convertRace (parse : List Char → Option AtlassianStreamChunk) (model : String)
    (nowUnix nowMillis : Int) :
    List (List Char) → Option String → List Bool → List Frame × Option String
  | [], endErr, sched =>
    match endErr, sched with
    | none, _ => ([Frame.done], none)
    | some e, true :: _ => ([], some e)
    | some _, _ => ([Frame.done], none)
  | line :: rest, endErr, sched =>
    match endErr, sched with
    | some e, true :: _ => ([], some e)
    | _, _ =>
      match processLine parse model nowUnix nowMillis line with
      | none => convertRace parse model nowUnix nowMillis rest endErr sched.tail
      | some chunk =>
        let r := convertRace parse model nowUnix nowMillis rest endErr sched.tail
        (Frame.data chunk :: r.1, r.2)

theorem convertRace_cons_none (parse : List Char → Option AtlassianStreamChunk)
    (model : String) (t ms : Int) (l : List Char) (rest : List (List Char))
    (sched : List Bool) :
    convertRace parse model t ms (l :: rest) none sched =
      (match processLine parse model t ms l with
       | none => convertRace parse model t ms rest none sched.tail
       | some chunk =>
         let r := convertRace parse model t ms rest none sched.tail
         (Frame.data chunk :: r.1, r.2)) := rfl

theorem convertRace_cons_line_first (parse : List Char → Option AtlassianStreamChunk)
    (model : String) (t ms : Int) (l : List Char) (rest : List (List Char))
    (e : String) (sched : List Bool) (h : sched.head? ≠ some true) :
    convertRace parse model t ms (l :: rest) (some e) sched =
      (match processLine parse model t ms l with
       | none => convertRace parse model t ms rest (some e) sched.tail
       | some chunk =>
         let r := convertRace parse model t ms rest (some e) sched.tail
         (Frame.data chunk :: r.1, r.2)) := by
  cases sched with
  | nil => rfl
  | cons b s =>
    cases b with
    | false => rfl
    | true => exact absurd rfl h

/-- `convertGo`, the converter under the error-first resolution of the race,
is `convertRace` under the schedule that takes the line channel while
records remain and the buffered error at the final select. -/
theorem convertGo_eq_convertRace (parse : List Char → Option AtlassianStreamChunk)
    (model : String) (t ms : Int) :
    ∀ (lines : List (List Char)) (endErr : Option String),
      convertGo parse model t ms lines endErr =
        convertRace parse model t ms lines endErr
          (List.replicate lines.length false ++ [true]) := by
  intro lines
  induction lines with
  | nil => intro endErr; cases endErr <;> rfl
  | cons l rest ih =>
    intro endErr
    have htail : (List.replicate (l :: rest).length false ++ [true]).tail =
        List.replicate rest.length false ++ [true] := by
      simp [List.replicate_succ]
    have hstep : convertRace parse model t ms (l :: rest) endErr
        (List.replicate (l :: rest).length false ++ [true]) =
        (match processLine parse model t ms l with
         | none => convertRace parse model t ms rest endErr
             (List.replicate rest.length false ++ [true])
         | some chunk =>
           let r := convertRace parse model t ms rest endErr
             (List.replicate rest.length false ++ [true])
           (Frame.data chunk :: r.1, r.2)) := by
      rw [← htail]
      cases endErr with
      | none => exact convertRace_cons_none parse model t ms l rest _
      | some e =>
        refine convertRace_cons_line_first parse model t ms l rest e _ ?_
        simp [List.replicate_succ]
    rw [hstep, convertGo]
    cases processLine parse model t ms l with
    | none => exact ih endErr
    | some c => dsimp only; rw [ih endErr]

/-- C9 counterexample: a reachable resolution of the select race emits the
terminal frame on an error ending. With the record sequence exhausted and
the decoder's error "boom" buffered, both channels are ready; the schedule
`[false]` has the select observe the closed line channel first, so the
converter emits "data: [DONE]\n\n" and returns without ever reading the
error — contradicting the claim that an error ending emits no terminal
frame. -/
theorem convert_done_on_error_counterexample :
    convertRace (fun _ => none) "m" 1 2 [] (some "boom") [false] =
      ([Frame.done], none) ∧
    Frame.done ∈ (convertRace (fun _ => none) "m" 1 2 [] (some "boom") [false]).1 := by
  refine ⟨rfl, by decide⟩

/-- C9 amended: under every resolution of the select race, a record sequence
exhausted normally yields exactly one terminal frame, as the last frame,
with no error forwarded; a sequence ending with an error yields, depending
on the schedule, either no terminal frame with the error forwarded, or —
when the closed line channel is observed before the buffered error — the
single terminal frame as the last frame with the error dropped. In every
case at most one terminal frame is emitted and it is last when present. -/
theorem convertRace_terminal_frame (parse : List Char → Option AtlassianStreamChunk)
    (model : String) (t ms : Int) (lines : List (List Char)) (sched : List Bool) :
    ((convertRace parse model t ms lines none sched).1.count Frame.done = 1 ∧
     (convertRace parse model t ms lines none sched).1.getLast? = some Frame.done ∧
     (convertRace parse model t ms lines none sched).2 = none) ∧
    (∀ e,
      ((convertRace parse model t ms lines (some e) sched).1.count Frame.done = 0 ∧
       (convertRace parse model t ms lines (some e) sched).2 = some e) ∨
      ((convertRace parse model t ms lines (some e) sched).1.count Frame.done = 1 ∧
       (convertRace parse model t ms lines (some e) sched).1.getLast? = some Frame.done ∧
       (convertRace parse model t ms lines (some e) sched).2 = none)) := by
  induction lines generalizing sched with
  | nil =>
    refine ⟨⟨rfl, rfl, rfl⟩, ?_⟩
    intro e
    match sched with
    | [] => exact Or.inr ⟨rfl, rfl, rfl⟩
    | true :: s => exact Or.inl ⟨rfl, rfl⟩
    | false :: s => exact Or.inr ⟨rfl, rfl, rfl⟩
  | cons l rest ih =>
    obtain ⟨⟨ihc, ihl, ihe⟩, ihErr⟩ := ih sched.tail
    constructor
    · rw [convertRace_cons_none]
      cases hpl : processLine parse model t ms l with
      | none => exact ⟨ihc, ihl, ihe⟩
      | some c =>
        dsimp only
        refine ⟨?_, ?_, ihe⟩
        · simp [List.count_cons, ihc]
        · cases hr : (convertRace parse model t ms rest none sched.tail).1 with
          | nil => rw [hr] at ihl; simp at ihl
          | cons x xs =>
            rw [hr] at ihl
            rw [List.getLast?_cons_cons]
            exact ihl
    · intro e
      by_cases hh : sched.head? = some true
      · obtain ⟨s, rfl⟩ : ∃ s, sched = true :: s := by
          cases sched with
          | nil => simp at hh
          | cons b s =>
            simp only [List.head?_cons, Option.some.injEq] at hh
            exact ⟨s, by rw [hh]⟩
        exact Or.inl ⟨rfl, rfl⟩
      · rw [convertRace_cons_line_first parse model t ms l rest e sched hh]
        cases hpl : processLine parse model t ms l with
        | none => exact ihErr e
        | some c =>
          dsimp only
          rcases ihErr e with ⟨hc0, he0⟩ | ⟨hc1, hl1, he1⟩
          · refine Or.inl ⟨?_, he0⟩
            simp [List.count_cons, hc0]
          · refine Or.inr ⟨?_, ?_, he1⟩
            · simp [List.count_cons, hc1]
            · cases hr : (convertRace parse model t ms rest (some e) sched.tail).1 with
              | nil => rw [hr] at hl1; simp at hl1
              | cons x xs =>
                rw [hr] at hl1
                rw [List.getLast?_cons_cons]
                exact hl1

end Kelaomi
